import Mathlib

/-!
Verification of the value-substitution and pagination engine of the
thanosql SDK (`thanosql/_util.py` and the validation prologue of
`QueryService.execute_values` in `thanosql/resources/_query.py`).

Python values that can flow into `_to_postgresql_value` are modelled by the
inductive `PyVal` (None, bool, int, str, list, dict with string keys).
Python strings are modelled as `String` or as their character list
(`List Char`); `str.replace(old, new)` with a nonempty pattern is modelled
by `listReplace` (left-to-right, non-overlapping replacement, exactly as
CPython performs it).  Exceptions are modelled with `Except String`, the
error payload being the exact message passed to `ThanoSQLValueError`.
-/

/-- Model of the Python values handled by `_to_postgresql_value_helper`:
`None`, `bool`, `int`, `str`, `list`, and JSON-serializable `dict`s with
string keys (insertion order preserved, as in Python). -/
inductive PyVal : Type where
| none : PyVal
| bool : Bool → PyVal
| int : Int → PyVal
| str : String → PyVal
| list : List PyVal → PyVal
| dict : List (String × PyVal) → PyVal

/-- Return type of `_to_postgresql_value_helper`, which is
`Union[str, list]` in the source: a string, or an arbitrarily nested list
of strings. -/
inductive PgVal : Type where
| s : String → PgVal
| l : List PgVal → PgVal

/-- One pass of Python `str.replace(old, new)` over a character list,
indexed by fuel.  For `fuel ≥ s.length` this is exactly the CPython
behaviour for a nonempty pattern `old`: scan left to right, replace each
non-overlapping occurrence of `old` by `new`.  (The `0, s => s` branch is
unreachable when the fuel is at least the length of the input.) -/
def replaceFuel (old new : List Char) : Nat → List Char → List Char
  | _, [] => []
  | 0, s => s
  | fuel + 1, c :: rest =>
    if old.isPrefixOf (c :: rest) then
      new ++ replaceFuel old new fuel ((c :: rest).drop old.length)
    else
      c :: replaceFuel old new fuel rest

/-- Python `s.replace(old, new)` for a nonempty pattern `old`, on
character lists. -/
def listReplace (old new s : List Char) : List Char := replaceFuel old new s.length s

/-- Python `s.replace(old, new)` for a nonempty pattern `old`, on strings.
Argument order matches the Python method: receiver first. -/
def pyReplaceStr (s old new : String) : String :=
  String.mk (listReplace old.data new.data s.data)

/-- Specification-side description of `.replace("\x5c\x27", "\x27")`:
normalize each backslash-escaped single quote to a bare single quote
(left-to-right, non-overlapping). -/
def unescapeCStyle : List Char → List Char
  | [] => []
  | [c] => [c]
  | c :: d :: rest =>
    if c = '\x5c' ∧ d = '\x27' then '\x27' :: unescapeCStyle rest
    else c :: unescapeCStyle (d :: rest)

/-- Specification-side description of `.replace("\x27", "\x27\x27")`:
double every single quote. -/
def doubleQuotes : List Char → List Char
  | [] => []
  | c :: rest =>
    if c = '\x27' then '\x27' :: '\x27' :: doubleQuotes rest
    else c :: doubleQuotes rest

/-- The inverse pass used by the round-trip property of the spec:
`.replace("\x27\x27", "\x27")`, un-doubling doubled single quotes
(left-to-right, non-overlapping). -/
def undoubleQuotes : List Char → List Char
  | [] => []
  | [c] => [c]
  | c :: d :: rest =>
    if c = '\x27' ∧ d = '\x27' then '\x27' :: undoubleQuotes rest
    else c :: undoubleQuotes (d :: rest)

/-- Whether the character list contains the two-character sequence
backslash, single-quote. -/
def hasBackslashQuote : List Char → Bool
  | [] => false
  | [_] => false
  | c :: d :: rest =>
    if c = '\x5c' ∧ d = '\x27' then true
    else hasBackslashQuote (d :: rest)

/-- Lowercase hexadecimal digit, as printed by the Python json encoder. -/
def hexDigit (n : Nat) : Char :=
  if n < 10 then Char.ofNat (48 + n) else Char.ofNat (87 + n)

/-- Four-digit lowercase hexadecimal rendering used in json `\uXXXX`
escapes. -/
def hex4 (n : Nat) : String :=
  String.mk [hexDigit (n / 4096 % 16), hexDigit (n / 256 % 16),
             hexDigit (n / 16 % 16), hexDigit (n % 16)]

/-- Escaping of one character inside a json string literal, following
CPython `json.dumps` with its defaults (`ensure_ascii=True`): the two
structural characters and the five short control escapes, `\uXXXX` for the
other control characters and for all non-ASCII characters (with surrogate
pairs above the basic multilingual plane), everything else verbatim. -/
def jsonEscapeChar (c : Char) : String :=
  if c = '\x22' then "\x5c\x22"
  else if c = '\x5c' then "\x5c\x5c"
  else if c = '\x08' then "\x5cb"
  else if c = '\x09' then "\x5ct"
  else if c = '\x0a' then "\x5cn"
  else if c = '\x0c' then "\x5cf"
  else if c = '\x0d' then "\x5cr"
  else if c.toNat < 32 ∨ c.toNat > 126 then
    if c.toNat ≤ 65535 then "\x5cu" ++ hex4 c.toNat
    else
      "\x5cu" ++ hex4 (55296 + (c.toNat - 65536) / 1024) ++
      "\x5cu" ++ hex4 (56320 + (c.toNat - 65536) % 1024)
  else String.singleton c

/-- Json string literal: escaped content surrounded by double quotes. -/
def jsonQuote (s : String) : String :=
  "\x22" ++ String.join (s.data.map jsonEscapeChar) ++ "\x22"

mutual
/-- Model of Python `json.dumps` (default separators `", "` and `": "`,
`ensure_ascii=True`) on one value. -/
def jsonVal : PyVal → String
  | .none => "null"
  | .bool b => if b then "true" else "false"
  | .int n => toString n
  | .str s => jsonQuote s
  | .list items => "[" ++ String.intercalate ", " (jsonList items) ++ "]"
  | .dict d => "\x7b" ++ String.intercalate ", " (jsonPairs d) ++ "\x7d"
/-- Renderings of the elements of a json array, in order. -/
def jsonList : List PyVal → List String
  | [] => []
  | v :: rest => jsonVal v :: jsonList rest
/-- Renderings of the key-value pairs of a json object, in order. -/
def jsonPairs : List (String × PyVal) → List String
  | [] => []
  | (k, v) :: rest => (jsonQuote k ++ ": " ++ jsonVal v) :: jsonPairs rest
end

/-- Python `json.dumps` applied to a dict, as done by
`_to_postgresql_value_helper` (`thanosql/_util.py`, line 31). -/
def jsonDumps (d : List (String × PyVal)) : String := jsonVal (.dict d)

mutual
/-- Model of `_to_postgresql_value_helper` (`thanosql/_util.py`, lines 18-44):
lists are mapped recursively; `None` becomes the bare string `NULL`;
dicts are json-serialized and then treated as strings; strings have
backslash-escaped single quotes normalized, single quotes doubled, and
are wrapped in single quotes; anything else becomes its Python `str()`
form (`True`/`False` for booleans, decimal for integers). -/
def toPostgresqlValueHelper : PyVal → PgVal
  | .list items => .l (helperMapList items)
  | .none => .s "NULL"
  | .dict d =>
    .s ("\x27" ++ pyReplaceStr (pyReplaceStr (jsonDumps d) "\x5c\x27" "\x27") "\x27" "\x27\x27" ++ "\x27")
  | .str v =>
    .s ("\x27" ++ pyReplaceStr (pyReplaceStr v "\x5c\x27" "\x27") "\x27" "\x27\x27" ++ "\x27")
  | .int n => .s (toString n)
  | .bool b => .s (if b then "True" else "False")
/-- Elementwise image of `_to_postgresql_value_helper` over a list
(the list comprehension on line 22 of `thanosql/_util.py`). -/
def helperMapList : List PyVal → List PgVal
  | [] => []
  | v :: rest => toPostgresqlValueHelper v :: helperMapList rest
end

mutual
/-- Model of `_stringify_list` (`thanosql/_util.py`, lines 9-15): join list
elements inside square brackets, recursively; a non-list value is shown
as itself (it is already a string here). -/
def stringifyList : PgVal → String
  | .s s => s
  | .l items => "[" ++ String.intercalate ", " (stringifyListMap items) ++ "]"
/-- Elementwise image of `_stringify_list` over the elements of a list. -/
def stringifyListMap : List PgVal → List String
  | [] => []
  | v :: rest => stringifyList v :: stringifyListMap rest
end

/-- Model of `_to_postgresql_value` (`thanosql/_util.py`, lines 47-58): run the
helper; an empty list becomes the literal `'\x7b\x7d'`, a non-empty list
becomes `ARRAY` followed by its bracketed structure, anything else is
returned unchanged. -/
def toPostgresqlValue (val : PyVal) : String :=
  match toPostgresqlValueHelper val with
  | .l items =>
    if items.length = 0 then "\x27\x7b\x7d\x27"
    else "ARRAY" ++ stringifyList (.l items)
  | .s s => s




/-- Python `query.split("\x7b\x7b val \x7d\x7d")` on a character list:
fragments between the non-overlapping occurrences of the placeholder
token, scanned left to right (`thanosql/_util.py`, line 63). -/
def splitOnPlaceholder : List Char → List (List Char)
  | '\x7b' :: '\x7b' :: ' ' :: 'v' :: 'a' :: 'l' :: ' ' :: '\x7d' :: '\x7d' :: rest =>
    [] :: splitOnPlaceholder rest
  | c :: rest =>
    match splitOnPlaceholder rest with
    | frag :: frags => (c :: frag) :: frags
    | [] => [[c]]
  | [] => [[]]

/-- Python `query.count("\x7b\x7b val \x7d\x7d")`: number of
non-overlapping occurrences of the placeholder token. -/
def countPlaceholder : List Char → Nat
  | '\x7b' :: '\x7b' :: ' ' :: 'v' :: 'a' :: 'l' :: ' ' :: '\x7d' :: '\x7d' :: rest =>
    countPlaceholder rest + 1
  | _ :: rest => countPlaceholder rest
  | [] => 0

/-- Python `s.split(";")` on a character list (`thanosql/_util.py`,
lines 76 and 81). -/
def splitOnSemicolon : List Char → List (List Char)
  | [] => [[]]
  | c :: rest =>
    if c = ';' then [] :: splitOnSemicolon rest
    else
      match splitOnSemicolon rest with
      | frag :: frags => (c :: frag) :: frags
      | [] => [[c]]

/-- The four-slot result list of `_split_query` (`result[0] .. result[3]`
in `thanosql/_util.py`, lines 74-84): statements before the statement owning the
placeholder, the part of that statement before the placeholder, the
part after it, and statements after the statement owning the placeholder.  The
outer two stay `None` when no surrounding statements exist. -/
structure SplitSegments : Type where
  beforeStmts : Option String
  valPre : String
  valPost : String
  afterStmts : Option String
deriving DecidableEq

/-- Model of `_split_query` (`thanosql/_util.py`, lines 61-86).  Splitting on the
placeholder must give exactly two parts, otherwise
`ThanoSQLValueError` is raised; the two parts are then split on
semicolons, the fragment adjacent to the placeholder is kept as
`valPre`/`valPost`, and the remaining fragments are rejoined with
semicolons into `beforeStmts`/`afterStmts` when present.  (the Python
`split` always returns a non-empty list, so the `getLastD`/`headD`
defaults are never used.) -/
def splitQuery (query : String) : Except String SplitSegments :=
  match (splitOnPlaceholder query.data).map String.mk with
  | [pre, post] =>
    let splitPre := (splitOnSemicolon pre.data).map String.mk
    let splitPost := (splitOnSemicolon post.data).map String.mk
    .ok
      { beforeStmts :=
          if splitPre.length > 1 then some (String.intercalate ";" splitPre.dropLast)
          else Option.none
        valPre := splitPre.getLastD ""
        valPost := splitPost.headD ""
        afterStmts :=
          if splitPost.length > 1 then some (String.intercalate ";" splitPost.tail)
          else Option.none }
  | _ => .error "One and only one \x7b\x7b val \x7d\x7d placeholder is required"




/-- One iteration of the `while True` loop of `_paginate`
(`thanosql/_util.py`, lines 89-106), fuel-indexed from the outside.  The
inner `for _ in range(page_size)` performs `max(page_size, 0)` calls to
`next(it)`: if at least `page_size.toNat` elements remain the loop body
completes and yields them as a full page, otherwise `StopIteration`
escapes with `page` holding all remaining elements, which are yielded as
a final short page when non-empty before the generator returns.  With
fuel at least `it.length + 1` and `page_size ≥ 1` the fuel never runs
out, so this is exactly the list of pages the generator yields. -/
def paginateAux {α : Type} : Nat → List α → Int → List (List α)
  | 0, _, _ => []
  | fuel + 1, it, ps =>
    if 1 ≤ ps ∧ ps.toNat ≤ it.length then
      it.take ps.toNat :: paginateAux fuel (it.drop ps.toNat) ps
    else if it.isEmpty then [] else [it]

/-- The full page list produced by `_paginate(seq, page_size)` on a
finite sequence, for `page_size ≥ 1` (the regime in which the generator
terminates; the non-terminating `page_size ≤ 0` regime is modelled by
`paginateRun` below). -/
def paginate {α : Type} (it : List α) (ps : Int) : List (List α) :=
  paginateAux (it.length + 1) it ps

/-- Outcome of one iteration of the `while True` loop of `_paginate`:
either a page is yielded and the loop continues with the rest of the
iterator, or `StopIteration` was hit and the generator yields its final
(possibly empty) batch of pages and returns. -/
inductive GenStep (α : Type) : Type where
| yield : List α → List α → GenStep α
| done : List (List α) → GenStep α

/-- One loop iteration of `_paginate`, with the iterator state made
explicit: `yield page rest` when the inner `for` completes, `done` when
`StopIteration` ends the generator. -/
def paginateStep {α : Type} (it : List α) (ps : Int) : GenStep α :=
  if ps.toNat ≤ it.length then .yield (it.take ps.toNat) (it.drop ps.toNat)
  else if it.isEmpty then .done [] else .done [it]

/-- Observation of the generator after `n` loop iterations: the pages
yielded so far, together with `some rest` when the loop is still running
with iterator state `rest`, or `Option.none` when the generator has
returned.  (All pages are included in the first component; for the
`done` case they are the final short batch.) -/
def paginateRun {α : Type} : List α → Int → Nat → List (List α) × Option (List α)
  | it, _, 0 => ([], some it)
  | it, ps, n + 1 =>
    match paginateStep it ps with
    | .yield page rest =>
      let r := paginateRun rest ps n
      (page :: r.1, r.2)
    | .done pages => (pages, Option.none)

/-- A value row passed to `fill_query_placeholder`: either a positional
tuple of values or a dict of named values
(`Union[List[tuple], List[dict]]` in the source). -/
inductive Row : Type where
| tup : List PyVal → Row
| dict : List (String × PyVal) → Row

/-- Whether the character list contains two consecutive opening braces,
i.e. the start of an unresolved template variable. -/
def hasDoubleOpenBrace : List Char → Bool
  | [] => false
  | [_] => false
  | c :: d :: rest =>
    if c = '\x7b' ∧ d = '\x7b' then true
    else hasDoubleOpenBrace (d :: rest)

/-- Modelled from the spec: the jinja2 renderer behind `_render`
(`thanosql/_util.py`, lines 109-113) is an external library whose code is
not part of this repository.  The spec prescribes, for templated mode,
substituting the serialized value of each named field into the row template by
exact field-name matching, with strict semantics: a field referenced by
the template but missing from the row must fail fast rather than render
as empty.  We model this by replacing every `\x7b\x7b name \x7d\x7d`
token for each supplied field, and failing when an unresolved variable
opening remains. -/
def renderRowTemplate (tmpl : String) (args : List (String × PyVal)) : Except String String :=
  let substituted :=
    args.foldl
      (fun acc kv =>
        listReplace ("\x7b\x7b ".data ++ kv.1.data ++ " \x7d\x7d".data)
          (toPostgresqlValue kv.2).data acc)
      tmpl.data
  if hasDoubleOpenBrace substituted then .error "undefined variable in row template"
  else .ok (String.mk substituted)

/-- The positional branch of the inner `for args in page` loop of
`fill_query_placeholder` (`thanosql/_util.py`, lines 133-143), taken when
`not template` is true: a row must be a tuple and is rendered as the
parenthesized comma-join of its serialized elements; a non-tuple row
raises `ThanoSQLValueError` with the tuples-expected message. -/
def renderRowPositional : Row → Except String String
  | .tup t => .ok ("(" ++ String.intercalate ", " (t.map toPostgresqlValue) ++ ")")
  | .dict _ =>
    .error "If template is not provided, values must be given as a list of tuples"

/-- The templated branch of the inner `for args in page` loop of
`fill_query_placeholder` (`thanosql/_util.py`, lines 145-152), taken when
`not template` is false: a row must be a dict and is rendered through the
row template; a non-dict row raises `ThanoSQLValueError` with the
dictionaries-expected message. -/
def renderRowTemplated (tmpl : String) : Row → Except String String
  | .dict d => renderRowTemplate tmpl d
  | .tup _ =>
    .error "If template is provided, values must be given as a list of dictionaries"

/-- The body of the inner `for args in page` loop of
`fill_query_placeholder` (`thanosql/_util.py`, lines 132-152).  The mode
is decided by the truthiness check `if not template:` on line 133, so the
row template counts as absent not only when it is `None` but also when it
is the empty string: in both cases the positional branch runs; only a
non-empty row template selects the templated branch. -/
def renderRow (template : Option String) (args : Row) : Except String String :=
  match template with
  | Option.none => renderRowPositional args
  | some t => if t = "" then renderRowPositional args else renderRowTemplated t args

/-- Left-to-right effectful map over `Except`, modelling a Python loop
that appends one result per element and lets the first raised exception
escape. -/
def mapExcept {γ β : Type} (f : γ → Except String β) : List γ → Except String (List β)
  | [] => .ok []
  | a :: rest =>
    match f a with
    | .error e => .error e
    | .ok b =>
      match mapExcept f rest with
      | .error e => .error e
      | .ok bs => .ok (b :: bs)

/-- One iteration of the `for page in _paginate(...)` loop of
`fill_query_placeholder` (`thanosql/_util.py`, lines 129-158): render
every row of the page, join the renderings with `", "`, and surround them
with the within-statement segments around the placeholder. -/
def renderPage (seg : SplitSegments) (template : Option String) (page : List Row) :
    Except String String :=
  match mapExcept (renderRow template) page with
  | .error e => .error e
  | .ok vals => .ok (seg.valPre ++ String.intercalate ", " vals ++ seg.valPost)

/-- Conversion to `[s]` for `some s` and `[]` for `None`: how `split_query[0]` and
`split_query[-1]` contribute to `completed_query_list`
(`thanosql/_util.py`, lines 126 and 160-161). -/
def optToList : Option String → List String
  | some s => [s]
  | Option.none => []

/-- Model of `fill_query_placeholder` (`thanosql/_util.py`, lines 116-163): split
the query around the placeholder, render one statement per page of
values, and join the before-statements, the per-page statements and the
after-statements with semicolons.  Exceptions escaping the loop
(including the shape-mismatch `ThanoSQLValueError`s) are the `.error`
results.  Like the source, this is faithful for `page_size ≥ 1`; for
`page_size ≤ 0` the source never terminates (see `paginateRun`). -/
def fillQueryPlaceholder (query : String) (values : List Row) (template : Option String)
    (page_size : Int) : Except String String :=
  match splitQuery query with
  | .error e => .error e
  | .ok seg =>
    match mapExcept (renderPage seg template) (paginate values page_size) with
    | .error e => .error e
    | .ok pageStmts =>
      .ok (String.intercalate ";"
        (optToList seg.beforeStmts ++ pageStmts ++ optToList seg.afterStmts))

/-- The validation prologue and query assembly of
`QueryService.execute_values` (`thanosql/resources/_query.py`,
lines 245-253): an empty `values` list and an out-of-range `page_size`
each raise `ThanoSQLValueError` before `fill_query_placeholder` is
called; otherwise the completed query string is assembled.  (The
subsequent HTTP request is outside the scope of this component.) -/
def executeValues (query : String) (values : List Row) (template : Option String)
    (page_size : Int) : Except String String :=
  if values.length = 0 then .error "Values cannot be empty"
  else if page_size < 1 ∨ page_size > 100 then
    .error "Page size can only range from 1 to 100 (inclusive)"
  else fillQueryPlaceholder query values template page_size




/-- The string `s[1:-1]`: the serializer output with its outer
enclosing single quotes stripped. -/
def stripOuterQuotes (s : String) : String := String.mk (s.data.drop 1).dropLast

/-- The inverse pass used by the spec, `replace("\x27\x27", "\x27")`: un-double
every internal doubled single quote. -/
def undoubleStr (s : String) : String := pyReplaceStr s "\x27\x27" "\x27"

/-- Whether `pat` occurs as a contiguous subsequence of the input. -/
def containsSeq (pat : List Char) : List Char → Bool
  | [] => decide (pat = [])
  | c :: rest => pat.isPrefixOf (c :: rest) || containsSeq pat rest

theorem paginateAux_succ {α : Type} (fuel : Nat) (it : List α) (ps : Int) :
    paginateAux (fuel + 1) it ps =
      if 1 ≤ ps ∧ ps.toNat ≤ it.length then
        it.take ps.toNat :: paginateAux fuel (it.drop ps.toNat) ps
      else if it.isEmpty then [] else [it] := rfl

theorem paginateAux_irrel {α : Type} (ps : Int) :
    ∀ fuel : Nat, ∀ it : List α, it.length < fuel →
      paginateAux fuel it ps = paginateAux (it.length + 1) it ps := by
  intro fuel
  induction fuel using Nat.strong_induction_on with
  | _ fuel ih =>
    intro it hlen
    match fuel, hlen with
    | fuel + 1, hlen =>
      rw [paginateAux_succ, paginateAux_succ]
      by_cases hc : 1 ≤ ps ∧ ps.toNat ≤ it.length
      · rw [if_pos hc, if_pos hc]
        have h1 : 1 ≤ ps.toNat := by omega
        have hdl : (it.drop ps.toNat).length = it.length - ps.toNat := List.length_drop ps.toNat it
        have e1 : paginateAux fuel (it.drop ps.toNat) ps =
            paginateAux ((it.drop ps.toNat).length + 1) (it.drop ps.toNat) ps :=
          ih fuel (by omega) _ (by omega)
        have e2 : paginateAux it.length (it.drop ps.toNat) ps =
            paginateAux ((it.drop ps.toNat).length + 1) (it.drop ps.toNat) ps :=
          ih it.length (by omega) _ (by omega)
        rw [e1, e2]
      · rw [if_neg hc, if_neg hc]

theorem paginate_eq {α : Type} (it : List α) (ps : Int) :
    paginate it ps =
      if 1 ≤ ps ∧ ps.toNat ≤ it.length then
        it.take ps.toNat :: paginate (it.drop ps.toNat) ps
      else if it.isEmpty then [] else [it] := by
  rw [paginate, paginateAux_succ]
  by_cases hc : 1 ≤ ps ∧ ps.toNat ≤ it.length
  · rw [if_pos hc, if_pos hc]
    have h1 : 1 ≤ ps.toNat := by omega
    have hdl : (it.drop ps.toNat).length = it.length - ps.toNat := List.length_drop ps.toNat it
    rw [paginate, paginateAux_irrel ps it.length _ (by omega)]
  · rw [if_neg hc, if_neg hc]

theorem paginate_nil {α : Type} (ps : Int) : paginate ([] : List α) ps = [] := by
  rw [paginate_eq]
  have hc : ¬(1 ≤ ps ∧ ps.toNat ≤ ([] : List α).length) := by
    intro h
    have := h.1
    have := h.2
    simp only [List.length_nil] at *
    omega
  rw [if_neg hc]
  rfl

theorem paginate_flatten {α : Type} (ps : Int) (hps : 1 ≤ ps) :
    ∀ it : List α, (paginate it ps).flatten = it := by
  have H : ∀ n : Nat, ∀ it : List α, it.length = n → (paginate it ps).flatten = it := by
    intro n
    induction n using Nat.strong_induction_on with
    | _ n ih =>
      intro it hlen
      rw [paginate_eq]
      by_cases hc : 1 ≤ ps ∧ ps.toNat ≤ it.length
      · rw [if_pos hc]
        have h1 : 1 ≤ ps.toNat := by omega
        have hdl : (it.drop ps.toNat).length = it.length - ps.toNat := List.length_drop ps.toNat it
        rw [List.flatten_cons,
          ih (it.drop ps.toNat).length (by omega) _ rfl,
          List.take_append_drop]
      · rw [if_neg hc]
        match it with
        | [] => rfl
        | c :: rest => simp
  exact fun it => H it.length it rfl

theorem paginate_mem_bounds {α : Type} (ps : Int) (hps : 1 ≤ ps) :
    ∀ it : List α, ∀ page ∈ paginate it ps,
      1 ≤ (page.length : Int) ∧ (page.length : Int) ≤ ps := by
  have H : ∀ n : Nat, ∀ it : List α, it.length = n →
      ∀ page ∈ paginate it ps, 1 ≤ (page.length : Int) ∧ (page.length : Int) ≤ ps := by
    intro n
    induction n using Nat.strong_induction_on with
    | _ n ih =>
      intro it hlen page hpage
      rw [paginate_eq] at hpage
      by_cases hc : 1 ≤ ps ∧ ps.toNat ≤ it.length
      · rw [if_pos hc] at hpage
        have h1 : 1 ≤ ps.toNat := by omega
        rcases List.mem_cons.mp hpage with heq | hmem
        · subst heq
          have : (it.take ps.toNat).length = ps.toNat := by
            rw [List.length_take]
            omega
          rw [this]
          omega
        · have hdl : (it.drop ps.toNat).length = it.length - ps.toNat := List.length_drop ps.toNat it
          exact ih (it.drop ps.toNat).length (by omega) _ rfl page hmem
      · rw [if_neg hc] at hpage
        have h2 : it.length < ps.toNat := by
          by_contra hcon
          exact hc ⟨hps, by omega⟩
        by_cases he : it.isEmpty
        · rw [if_pos he] at hpage
          exact absurd hpage (List.not_mem_nil page)
        · rw [if_neg he] at hpage
          have hp : page = it := by simpa using hpage
          subst hp
          have hne : page ≠ [] := by
            intro hnil
            rw [hnil] at he
            exact he rfl
          have h1 : 1 ≤ page.length := List.length_pos.mpr hne
          omega
  exact fun it => H it.length it rfl

theorem paginateStep_nonpos {α : Type} (ps : Int) (h : ps ≤ 0) (it : List α) :
    paginateStep it ps = .yield [] it := by
  have h0 : ps.toNat = 0 := by omega
  rw [paginateStep, h0]
  simp

theorem paginateRun_zero {α : Type} (it : List α) (ps : Int) :
    paginateRun it ps 0 = ([], some it) := rfl

theorem paginateRun_succ {α : Type} (it : List α) (ps : Int) (n : Nat) :
    paginateRun it ps (n + 1) =
      match paginateStep it ps with
      | .yield page rest =>
        ((page :: (paginateRun rest ps n).1, (paginateRun rest ps n).2) :
          List (List α) × Option (List α))
      | .done pages => (pages, Option.none) := rfl

theorem paginateRun_complete {α : Type} (ps : Int) (hps : 1 ≤ ps) :
    ∀ n : Nat, ∀ it : List α, it.length < n →
      paginateRun it ps n = (paginate it ps, Option.none) := by
  intro n
  induction n using Nat.strong_induction_on with
  | _ n ih =>
    intro it hlen
    match n, hlen with
    | n + 1, hlen =>
      rw [paginateRun_succ, paginate_eq]
      by_cases hc : ps.toNat ≤ it.length
      · have h1 : 1 ≤ ps.toNat := by omega
        have hdl : (it.drop ps.toNat).length = it.length - ps.toNat :=
          List.length_drop ps.toNat it
        rw [paginateStep, if_pos hc]
        have hrec : paginateRun (it.drop ps.toNat) ps n =
            (paginate (it.drop ps.toNat) ps, Option.none) :=
          ih n (by omega) _ (by omega)
        rw [if_pos ⟨hps, hc⟩]
        simp [hrec]
      · have hcc : ¬(1 ≤ ps ∧ ps.toNat ≤ it.length) := fun h => hc h.2
        rw [paginateStep, if_neg hc, if_neg hcc]
        by_cases he : it.isEmpty
        · rw [if_pos he, if_pos he]
        · rw [if_neg he, if_neg he]

/-- C1: for every input sequence and every `page_size ≥ 1`, `_paginate`
yields only pages whose length is between 1 and `page_size` inclusive
(never an empty page), and concatenating the yielded pages in order
reproduces the input sequence exactly; an empty input yields zero pages,
and 5 values with `page_size = 2` yield 3 pages of sizes 2, 2, 1. -/
theorem paginate_pages_correct {α : Type} (seq : List α) (ps : Int) (hps : 1 ≤ ps) :
    (∀ page ∈ paginate seq ps, 1 ≤ (page.length : Int) ∧ (page.length : Int) ≤ ps) ∧
    (paginate seq ps).flatten = seq ∧
    paginate ([] : List α) ps = [] ∧
    (paginate [1, 2, 3, 4, 5] (2 : Int)).map List.length = [2, 2, 1] :=
  ⟨paginate_mem_bounds ps hps seq, paginate_flatten ps hps seq, paginate_nil ps, rfl⟩

theorem paginate_pages_correct_witness :
    (1 : Int) ≤ 2 ∧
    ((∀ page ∈ paginate [10, 20, 30, 40, 50] (2 : Int),
        1 ≤ (page.length : Int) ∧ (page.length : Int) ≤ 2) ∧
      (paginate [10, 20, 30, 40, 50] (2 : Int)).flatten = [10, 20, 30, 40, 50] ∧
      paginate ([] : List Nat) (2 : Int) = [] ∧
      (paginate [1, 2, 3, 4, 5] (2 : Int)).map List.length = [2, 2, 1]) :=
  ⟨by omega, paginate_pages_correct [10, 20, 30, 40, 50] 2 (by omega)⟩

/-- C10: for every `page_size ≤ 0`, `_paginate` never consumes an input
element and never terminates: after any number `n` of loop iterations it
has yielded exactly `n` chunks, all of them empty, and is still running
with the input sequence untouched (so the never-empty-page and
termination guarantees hold only under the precondition
`page_size ≥ 1`). -/
theorem paginate_nonpositive_diverges {α : Type} (ps : Int) (hps : ps ≤ 0)
    (seq : List α) (n : Nat) :
    paginateRun seq ps n = (List.replicate n [], some seq) := by
  induction n with
  | zero => rfl
  | succ n ih =>
    rw [paginateRun_succ, paginateStep_nonpos ps hps seq]
    show ([] :: (paginateRun seq ps n).1, (paginateRun seq ps n).2) =
      (List.replicate (n + 1) [], some seq)
    rw [ih]
    simp [List.replicate_succ]

theorem paginate_nonpositive_diverges_witness :
    (0 : Int) ≤ 0 ∧
    paginateRun [1, 2, 3] (0 : Int) 4 = ([[], [], [], []], some [1, 2, 3]) :=
  ⟨by omega, by
    have h := paginate_nonpositive_diverges (α := Nat) 0 (by omega) [1, 2, 3] 4
    simpa using h⟩

theorem replaceFuel_nil (old new : List Char) (fuel : Nat) :
    replaceFuel old new fuel [] = [] := by
  cases fuel <;> rfl

theorem replaceFuel_succ (old new : List Char) (fuel : Nat) (c : Char) (rest : List Char) :
    replaceFuel old new (fuel + 1) (c :: rest) =
      if old.isPrefixOf (c :: rest) then
        new ++ replaceFuel old new fuel ((c :: rest).drop old.length)
      else
        c :: replaceFuel old new fuel rest := rfl

theorem unescapeCStyle_pair (c d : Char) (rest : List Char) :
    unescapeCStyle (c :: d :: rest) =
      if c = '\x5c' ∧ d = '\x27' then '\x27' :: unescapeCStyle rest
      else c :: unescapeCStyle (d :: rest) := rfl

theorem doubleQuotes_cons (c : Char) (rest : List Char) :
    doubleQuotes (c :: rest) =
      if c = '\x27' then '\x27' :: '\x27' :: doubleQuotes rest
      else c :: doubleQuotes rest := rfl

theorem undoubleQuotes_pair (c d : Char) (rest : List Char) :
    undoubleQuotes (c :: d :: rest) =
      if c = '\x27' ∧ d = '\x27' then '\x27' :: undoubleQuotes rest
      else c :: undoubleQuotes (d :: rest) := rfl

theorem hasBackslashQuote_pair (c d : Char) (rest : List Char) :
    hasBackslashQuote (c :: d :: rest) =
      if c = '\x5c' ∧ d = '\x27' then true
      else hasBackslashQuote (d :: rest) := rfl

theorem isPrefixOf_pair (a b c d : Char) (rest : List Char) :
    [a, b].isPrefixOf (c :: d :: rest) = (a == c && b == d) := by
  simp [List.isPrefixOf]

theorem isPrefixOf_pair_one (a b c : Char) :
    [a, b].isPrefixOf [c] = false := by
  simp [List.isPrefixOf]

theorem isPrefixOf_one (a c : Char) (rest : List Char) :
    [a].isPrefixOf (c :: rest) = (a == c) := by
  simp [List.isPrefixOf]

theorem replaceFuel_unescape :
    ∀ (fuel : Nat) (s : List Char), s.length ≤ fuel →
      replaceFuel ['\x5c', '\x27'] ['\x27'] fuel s = unescapeCStyle s := by
  intro fuel
  induction fuel with
  | zero =>
    intro s hs
    have hnil : s = [] := by cases s <;> simp_all
    subst hnil
    rfl
  | succ fuel ih =>
    intro s hs
    match s with
    | [] => rfl
    | [c] =>
      rw [replaceFuel_succ, isPrefixOf_pair_one]
      simp only [if_false, Bool.false_eq_true]
      rw [replaceFuel_nil]
      rfl
    | c :: d :: rest =>
      rw [replaceFuel_succ, isPrefixOf_pair]
      simp only [List.length_cons] at hs
      by_cases h : c = '\x5c' ∧ d = '\x27'
      · obtain ⟨hc, hd⟩ := h
        subst hc
        subst hd
        simp only [beq_self_eq_true, Bool.and_self, if_true]
        show ['\x27'] ++ replaceFuel ['\x5c', '\x27'] ['\x27'] fuel rest =
          unescapeCStyle ('\x5c' :: '\x27' :: rest)
        rw [ih rest (by omega), unescapeCStyle_pair]
        simp
      · have hb : (('\x5c' : Char) == c && ('\x27' : Char) == d) = false := by
          rcases not_and_or.mp h with hc | hd
          · have : (('\x5c' : Char) == c) = false := by
              simp only [beq_eq_false_iff_ne, ne_eq]
              exact fun hcc => hc hcc.symm
            simp [this]
          · have : (('\x27' : Char) == d) = false := by
              simp only [beq_eq_false_iff_ne, ne_eq]
              exact fun hdd => hd hdd.symm
            simp [this]
        rw [hb]
        simp only [if_false, Bool.false_eq_true]
        rw [ih (d :: rest) (by simp; omega), unescapeCStyle_pair, if_neg h]

theorem replaceFuel_double :
    ∀ (fuel : Nat) (s : List Char), s.length ≤ fuel →
      replaceFuel ['\x27'] ['\x27', '\x27'] fuel s = doubleQuotes s := by
  intro fuel
  induction fuel with
  | zero =>
    intro s hs
    have hnil : s = [] := by cases s <;> simp_all
    subst hnil
    rfl
  | succ fuel ih =>
    intro s hs
    match s with
    | [] => rfl
    | c :: rest =>
      rw [replaceFuel_succ, isPrefixOf_one, doubleQuotes_cons]
      simp only [List.length_cons] at hs
      by_cases h : c = '\x27'
      · subst h
        simp only [beq_self_eq_true, if_true, if_pos rfl]
        show ['\x27', '\x27'] ++ replaceFuel ['\x27'] ['\x27', '\x27'] fuel rest =
          '\x27' :: '\x27' :: doubleQuotes rest
        rw [ih rest (by omega)]
        simp
      · have hb : (('\x27' : Char) == c) = false := by
          simp only [beq_eq_false_iff_ne, ne_eq]
          exact fun hcc => h hcc.symm
        rw [hb, if_neg h]
        simp only [if_false, Bool.false_eq_true]
        rw [ih rest (by omega)]

theorem replaceFuel_undouble :
    ∀ (fuel : Nat) (s : List Char), s.length ≤ fuel →
      replaceFuel ['\x27', '\x27'] ['\x27'] fuel s = undoubleQuotes s := by
  intro fuel
  induction fuel with
  | zero =>
    intro s hs
    have hnil : s = [] := by cases s <;> simp_all
    subst hnil
    rfl
  | succ fuel ih =>
    intro s hs
    match s with
    | [] => rfl
    | [c] =>
      rw [replaceFuel_succ, isPrefixOf_pair_one]
      simp only [if_false, Bool.false_eq_true]
      rw [replaceFuel_nil]
      rfl
    | c :: d :: rest =>
      rw [replaceFuel_succ, isPrefixOf_pair]
      simp only [List.length_cons] at hs
      by_cases h : c = '\x27' ∧ d = '\x27'
      · obtain ⟨hc, hd⟩ := h
        subst hc
        subst hd
        simp only [beq_self_eq_true, Bool.and_self, if_true]
        show ['\x27'] ++ replaceFuel ['\x27', '\x27'] ['\x27'] fuel rest =
          undoubleQuotes ('\x27' :: '\x27' :: rest)
        rw [ih rest (by omega), undoubleQuotes_pair]
        simp
      · have hb : (('\x27' : Char) == c && ('\x27' : Char) == d) = false := by
          rcases not_and_or.mp h with hc | hd
          · have : (('\x27' : Char) == c) = false := by
              simp only [beq_eq_false_iff_ne, ne_eq]
              exact fun hcc => hc hcc.symm
            simp [this]
          · have : (('\x27' : Char) == d) = false := by
              simp only [beq_eq_false_iff_ne, ne_eq]
              exact fun hdd => hd hdd.symm
            simp [this]
        rw [hb]
        simp only [if_false, Bool.false_eq_true]
        rw [ih (d :: rest) (by simp; omega), undoubleQuotes_pair, if_neg h]

theorem listReplace_unescape (s : List Char) :
    listReplace ['\x5c', '\x27'] ['\x27'] s = unescapeCStyle s :=
  replaceFuel_unescape s.length s (Nat.le_refl _)

theorem listReplace_double (s : List Char) :
    listReplace ['\x27'] ['\x27', '\x27'] s = doubleQuotes s :=
  replaceFuel_double s.length s (Nat.le_refl _)

theorem listReplace_undouble (s : List Char) :
    listReplace ['\x27', '\x27'] ['\x27'] s = undoubleQuotes s :=
  replaceFuel_undouble s.length s (Nat.le_refl _)

theorem undoubleQuotes_doubleQuotes (l : List Char) :
    undoubleQuotes (doubleQuotes l) = l := by
  induction l with
  | nil => rfl
  | cons c rest ih =>
    rw [doubleQuotes_cons]
    by_cases h : c = '\x27'
    · subst h
      rw [if_pos rfl]
      rw [undoubleQuotes_pair, if_pos ⟨rfl, rfl⟩, ih]
    · rw [if_neg h]
      match hd : doubleQuotes rest with
      | [] =>
        have hr : rest = [] := by
          cases rest with
          | nil => rfl
          | cons d rest2 =>
            rw [doubleQuotes_cons] at hd
            by_cases hdq : d = '\x27' <;> simp [hdq] at hd
        subst hr
        rfl
      | d :: l2 =>
        rw [undoubleQuotes_pair]
        have hcq : ¬(c = '\x27' ∧ d = '\x27') := fun hh => h hh.1
        rw [if_neg hcq, ← hd, ih]

theorem unescapeCStyle_id (l : List Char) (h : hasBackslashQuote l = false) :
    unescapeCStyle l = l := by
  induction l with
  | nil => rfl
  | cons c rest ih =>
    cases rest with
    | nil => rfl
    | cons d rest2 =>
      rw [hasBackslashQuote_pair] at h
      rw [unescapeCStyle_pair]
      by_cases hb : c = '\x5c' ∧ d = '\x27'
      · rw [if_pos hb] at h
        exact absurd h (by simp)
      · rw [if_neg hb] at h
        rw [if_neg hb, ih h]



/-- C3: `_to_postgresql_value` maps `None` to the bare unquoted string
`NULL`; maps every string to the result of first normalizing each
backslash-escaped single quote to a bare single quote, then doubling
every single quote, then wrapping the whole result in single quotes; and
maps every dict to the string rule applied to the json
serialization of the dict. -/
theorem toPostgresqlValue_str_eq (s : String) :
    toPostgresqlValue (.str s) =
      "\x27" ++ String.mk (doubleQuotes (unescapeCStyle s.data)) ++ "\x27" := by
  show "\x27" ++ pyReplaceStr (pyReplaceStr s "\x5c\x27" "\x27") "\x27" "\x27\x27" ++ "\x27" = _
  rw [pyReplaceStr, pyReplaceStr]
  show "\x27" ++ String.mk (listReplace ['\x27'] ['\x27', '\x27']
      (listReplace ['\x5c', '\x27'] ['\x27'] s.data)) ++ "\x27" = _
  rw [listReplace_unescape, listReplace_double]

theorem to_postgresql_value_spec :
    toPostgresqlValue PyVal.none = "NULL" ∧
    (∀ s : String,
      toPostgresqlValue (.str s) =
        "\x27" ++ String.mk (doubleQuotes (unescapeCStyle s.data)) ++ "\x27") ∧
    (∀ d : List (String × PyVal),
      toPostgresqlValue (.dict d) = toPostgresqlValue (.str (jsonDumps d))) :=
  ⟨rfl, toPostgresqlValue_str_eq, fun d => rfl⟩

theorem pgQuoted_data (t : String) :
    ("\x27" ++ t ++ "\x27").data = '\x27' :: t.data ++ ['\x27'] := by
  rw [String.data_append, String.data_append]
  rfl

/-- C2 fails as stated: for the two-character string backslash,
single-quote (which contains a single quote), the serializer first
normalizes the backslash-escape away, so stripping the outer quotes and
un-doubling does not restore the original string. -/
theorem serialize_roundtrip_counterexample :
    ('\x27' ∈ ("\x5c\x27" : String).data) ∧
    undoubleStr (stripOuterQuotes (toPostgresqlValue (.str "\x5c\x27"))) = "\x27" ∧
    ("\x27" : String) ≠ "\x5c\x27" := by
  refine ⟨by decide, by rfl, by decide⟩

/-- C2 (amended): for every string containing at least one single quote
and no occurrence of the two-character sequence backslash, single-quote,
taking the serializer output, stripping the outer enclosing single
quotes, and replacing every internal doubled single quote back with a
single quote yields exactly the original string. -/
theorem serialize_roundtrip (s : String) (hq : '\x27' ∈ s.data)
    (hbs : hasBackslashQuote s.data = false) :
    undoubleStr (stripOuterQuotes (toPostgresqlValue (.str s))) = s := by
  have h1 : toPostgresqlValue (.str s) =
      "\x27" ++ String.mk (doubleQuotes (unescapeCStyle s.data)) ++ "\x27" :=
    toPostgresqlValue_str_eq s
  rw [h1, stripOuterQuotes, pgQuoted_data]
  show undoubleStr (String.mk ((doubleQuotes (unescapeCStyle s.data) ++ ['\x27']).dropLast)) = s
  rw [List.dropLast_concat]
  rw [undoubleStr, pyReplaceStr]
  show String.mk (listReplace ['\x27', '\x27'] ['\x27'] (doubleQuotes (unescapeCStyle s.data))) = s
  rw [listReplace_undouble, unescapeCStyle_id s.data hbs, undoubleQuotes_doubleQuotes]

theorem serialize_roundtrip_witness :
    ('\x27' ∈ ("it\x27s" : String).data) ∧
    hasBackslashQuote ("it\x27s" : String).data = false ∧
    undoubleStr (stripOuterQuotes (toPostgresqlValue (.str "it\x27s"))) = "it\x27s" :=
  ⟨by decide, by decide, serialize_roundtrip "it\x27s" (by decide) (by decide)⟩

theorem splitOnPlaceholder_length (l : List Char) :
    (splitOnPlaceholder l).length = countPlaceholder l + 1 := by
  induction l using splitOnPlaceholder.induct with
  | case1 rest ih =>
    simp only [splitOnPlaceholder, countPlaceholder, List.length_cons]
    omega
  | case2 c rest hnp frag frags hmatch ih =>
    simp_all [splitOnPlaceholder, countPlaceholder]
  | case3 c rest hnp hmatch ih =>
    simp_all [splitOnPlaceholder, countPlaceholder]
  | case4 =>
    simp [splitOnPlaceholder, countPlaceholder]

/-- C4: `_split_query` fails with the placeholder-count
`ThanoSQLValueError` if and only if the number of non-overlapping
occurrences of the placeholder token in the template is not exactly one;
with exactly one occurrence it succeeds and returns the four segments. -/
theorem split_query_ok_iff (q : String) :
    (splitQuery q).isOk = true ↔ countPlaceholder q.data = 1 := by
  have hlen := splitOnPlaceholder_length q.data
  match hl : splitOnPlaceholder q.data with
  | [] =>
    rw [hl] at hlen
    simp at hlen
  | [a] =>
    rw [hl] at hlen
    simp only [List.length_cons, List.length_nil] at hlen
    simp only [splitQuery, hl, List.map_cons, List.map_nil, Except.isOk]
    constructor
    · intro h
      simp [Except.toBool] at h
    · intro h
      omega
  | [a, b] =>
    rw [hl] at hlen
    simp only [List.length_cons, List.length_nil] at hlen
    simp only [splitQuery, hl, List.map_cons, List.map_nil, Except.isOk]
    constructor
    · intro _
      omega
    · intro _
      rfl
  | a :: b :: c :: rest =>
    rw [hl] at hlen
    simp only [List.length_cons] at hlen
    simp only [splitQuery, hl, List.map_cons, Except.isOk]
    constructor
    · intro h
      simp [Except.toBool] at h
    · intro h
      omega

/-- C6: `_split_query` on the multi-statement template
`DROP TABLE x; INSERT INTO t VALUES <placeholder>; ANALYZE t` returns
the four segments `DROP TABLE x` (before), ` INSERT INTO t VALUES `
(within-statement head), `` (within-statement tail) and ` ANALYZE t`
(after); and on a template with no surrounding statements the outer two
slots are absent (`None`). -/
theorem split_query_multi_statement :
    splitQuery "DROP TABLE x; INSERT INTO t VALUES \x7b\x7b val \x7d\x7d; ANALYZE t" =
      .ok ⟨some "DROP TABLE x", " INSERT INTO t VALUES ", "", some " ANALYZE t"⟩ ∧
    splitQuery "INSERT INTO t VALUES \x7b\x7b val \x7d\x7d" =
      .ok ⟨Option.none, "INSERT INTO t VALUES ", "", Option.none⟩ :=
  ⟨rfl, rfl⟩


/-- C5: positional-mode end-to-end rendering of the concrete scenario
of the spec: template `VALUES <placeholder>`, two positional rows, page
size 100; each row is serialized element-wise, comma-joined and
parenthesized, rows are joined by `", "`, and no statement separator is
introduced for a single page. -/
theorem fill_query_placeholder_positional_example :
    fillQueryPlaceholder "VALUES \x7b\x7b val \x7d\x7d"
      [.tup [.int 1, .str "gangnam", .str "seoul"],
       .tup [.int 2, .str "haeundae", .str "busan"]]
      Option.none 100 =
    .ok "VALUES (1, \x27gangnam\x27, \x27seoul\x27), (2, \x27haeundae\x27, \x27busan\x27)" := rfl

/-- C7 fails as stated on its nested-list reading: in
`serialize([[],[]])` the nested empty lists are rendered as the bare
brackets `[]`, not as `ARRAY[]` — the output is `ARRAY[[], []]`, which
contains no occurrence of `ARRAY[]` and differs from
`ARRAY[ARRAY[], ARRAY[]]`. -/
theorem serialize_nested_empty_counterexample :
    toPostgresqlValue (.list [.list [], .list []]) = "ARRAY[[], []]" ∧
    containsSeq ("ARRAY[]".data) (toPostgresqlValue (.list [.list [], .list []])).data = false ∧
    toPostgresqlValue (.list [.list [], .list []]) ≠ "ARRAY[ARRAY[], ARRAY[]]" :=
  ⟨rfl, by decide, by decide⟩

/-- C7 (amended): the serializer maps the top-level empty list to exactly
the quoted literal `'\x7b\x7d'` and this special form applies only to a
top-level empty list: every non-empty list is rendered via the general
ARRAY rule — `ARRAY` followed by the bracketed comma-joined structure of
its recursively serialized elements — and nested empty lists inside a
non-empty outer list appear as bare brackets `[]` within that structure
(not as `'\x7b\x7d'` and without an `ARRAY` prefix of their own), as in
`serialize([[],[]]) = ARRAY[[], []]`. -/
theorem serialize_empty_array_rule :
    toPostgresqlValue (.list []) = "\x27\x7b\x7d\x27" ∧
    (∀ items : List PyVal, items ≠ [] →
      toPostgresqlValue (.list items) =
        "ARRAY" ++ stringifyList (.l (helperMapList items))) ∧
    toPostgresqlValue (.list [.list [], .list []]) = "ARRAY[[], []]" := by
  refine ⟨rfl, fun items hne => ?_, rfl⟩
  match items with
  | [] => exact absurd rfl hne
  | v :: rest => rfl

theorem serialize_empty_array_rule_witness :
    ([PyVal.list [], PyVal.list []] : List PyVal) ≠ [] ∧
    toPostgresqlValue (.list [.list [], .list []]) =
      "ARRAY" ++ stringifyList (.l (helperMapList [.list [], .list []])) :=
  ⟨by simp, serialize_empty_array_rule.2.1 [.list [], .list []] (by simp)⟩

theorem mapExcept_nil {γ β : Type} (f : γ → Except String β) :
    mapExcept f [] = .ok [] := rfl

theorem mapExcept_cons {γ β : Type} (f : γ → Except String β) (a : γ) (l : List γ) :
    mapExcept f (a :: l) =
      match f a with
      | .error e => .error e
      | .ok b =>
        match mapExcept f l with
        | .error e => .error e
        | .ok bs => .ok (b :: bs) := rfl

theorem isOk_exists {β : Type} (e : Except String β) (h : e.isOk = true) :
    ∃ b, e = .ok b := by
  cases e with
  | ok b => exact ⟨b, rfl⟩
  | error err => simp [Except.isOk, Except.toBool] at h

theorem mapExcept_ok_of_all {γ β : Type} (f : γ → Except String β) :
    ∀ l : List γ, (∀ r ∈ l, (f r).isOk = true) → ∃ bs, mapExcept f l = .ok bs := by
  intro l
  induction l with
  | nil => exact fun _ => ⟨[], rfl⟩
  | cons a l ih =>
    intro h
    obtain ⟨b, hb⟩ := isOk_exists (f a) (h a (List.mem_cons_self a l))
    obtain ⟨bs, hbs⟩ := ih fun r hr => h r (List.mem_cons_of_mem a hr)
    exact ⟨b :: bs, by rw [mapExcept_cons, hb, hbs]⟩

theorem mapExcept_error_first {γ β : Type} (f : γ → Except String β) (e : String)
    (bad : γ) (hbad : f bad = .error e) :
    ∀ (pre rest : List γ), (∀ r ∈ pre, (f r).isOk = true) →
      mapExcept f (pre ++ bad :: rest) = .error e := by
  intro pre
  induction pre with
  | nil =>
    intro rest _
    rw [List.nil_append, mapExcept_cons, hbad]
  | cons a pre ih =>
    intro rest h
    obtain ⟨b, hb⟩ := isOk_exists (f a) (h a (List.mem_cons_self a pre))
    rw [List.cons_append, mapExcept_cons, hb,
      ih rest fun r hr => h r (List.mem_cons_of_mem a hr)]

theorem renderPage_isOk (seg : SplitSegments) (t : Option String) (page : List Row)
    (h : ∀ r ∈ page, (renderRow t r).isOk = true) :
    (renderPage seg t page).isOk = true := by
  obtain ⟨vals, hvals⟩ := mapExcept_ok_of_all (renderRow t) page h
  rw [renderPage, hvals]
  rfl

theorem renderPage_error (seg : SplitSegments) (t : Option String) (page : List Row)
    (e : String) (h : mapExcept (renderRow t) page = .error e) :
    renderPage seg t page = .error e := by
  rw [renderPage, h]

theorem flatten_decomp {γ : Type} :
    ∀ (pages : List (List γ)) (pre rest : List γ) (bad : γ),
      pages.flatten = pre ++ bad :: rest →
      ∃ (pagesPre : List (List γ)) (p1 p2 : List γ) (pagesRest : List (List γ)),
        pages = pagesPre ++ (p1 ++ bad :: p2) :: pagesRest ∧
        pagesPre.flatten ++ p1 = pre ∧
        p2 ++ pagesRest.flatten = rest := by
  intro pages
  induction pages with
  | nil =>
    intro pre rest bad h
    rw [List.flatten_nil] at h
    exact absurd h.symm (by simp)
  | cons page pages ih =>
    intro pre rest bad h
    rw [List.flatten_cons] at h
    rcases List.append_eq_append_iff.mp h with ⟨a2, ha1, ha2⟩ | ⟨c2, hc1, hc2⟩
    · obtain ⟨pagesPre, p1, p2, pagesRest, hstruct, hpre, hrest⟩ :=
        ih a2 rest bad ha2
      refine ⟨page :: pagesPre, p1, p2, pagesRest, ?_, ?_, hrest⟩
      · rw [hstruct]
        rfl
      · rw [List.flatten_cons, List.append_assoc, hpre, ha1]
    · match c2, hc1, hc2 with
      | [], hc1, hc2 =>
        obtain ⟨pagesPre, p1, p2, pagesRest, hstruct, hpre, hrest⟩ :=
          ih [] rest bad (by simpa using hc2.symm)
        have hp1 : p1 = [] := (List.append_eq_nil.mp hpre).2
        refine ⟨page :: pagesPre, p1, p2, pagesRest, ?_, ?_, hrest⟩
        · rw [hstruct]
          rfl
        · rw [List.append_nil] at hc1
          rw [List.flatten_cons, List.append_assoc, hpre, List.append_nil]
          exact hc1
      | c0 :: c2, hc1, hc2 =>
        rw [List.cons_append] at hc2
        injection hc2 with hb hr
        refine ⟨[], pre, c2, pages, ?_, rfl, hr.symm⟩
        simp only [List.nil_append]
        rw [hc1, hb]

theorem fill_error_of_bad_row (q : String) (seg : SplitSegments) (t : Option String)
    (ps : Int) (hps : 1 ≤ ps) (pre rest : List Row) (bad : Row) (e : String)
    (hq : splitQuery q = .ok seg)
    (hpre : ∀ r ∈ pre, (renderRow t r).isOk = true)
    (hbad : renderRow t bad = .error e) :
    fillQueryPlaceholder q (pre ++ bad :: rest) t ps = .error e := by
  have hflat : (paginate (pre ++ bad :: rest) ps).flatten = pre ++ bad :: rest :=
    paginate_flatten ps hps _
  obtain ⟨pagesPre, p1, p2, pagesRest, hstruct, hpre2, hrest2⟩ :=
    flatten_decomp _ pre rest bad hflat
  have hmem : ∀ r ∈ pagesPre.flatten ++ p1, (renderRow t r).isOk = true := by
    intro r hr
    exact hpre r (hpre2 ▸ hr)
  have hpagesOk : ∀ page ∈ pagesPre, (renderPage seg t page).isOk = true := by
    intro page hp
    apply renderPage_isOk
    intro r hr
    exact hmem r (List.mem_append_left _ (List.mem_flatten.mpr ⟨page, hp, hr⟩))
  have hbadPage : renderPage seg t (p1 ++ bad :: p2) = .error e := by
    apply renderPage_error
    exact mapExcept_error_first (renderRow t) e bad hbad p1 p2
      fun r hr => hmem r (List.mem_append_right _ hr)
  have hpages :
      mapExcept (renderPage seg t) (paginate (pre ++ bad :: rest) ps) = .error e := by
    rw [hstruct]
    exact mapExcept_error_first (renderPage seg t) e (p1 ++ bad :: p2) hbadPage
      pagesPre pagesRest hpagesOk
  simp only [fillQueryPlaceholder, hq, hpages]

/-- C8: mode-consistency validation of `fill_query_placeholder`.  The
source decides the active mode by the truthiness check `if not template:`
(`thanosql/_util.py`, line 133), so the row template is absent exactly
when it is `None` or the empty string, and present when it is a non-empty
string.  With the row template absent, the first value row that is not a
tuple makes the call fail with the `ThanoSQLValueError` whose message
says a list of tuples was expected; with the row template present, the
first value row that is not a dict makes it fail with the message saying
a list of dictionaries was expected.  (The two distinct messages identify
which shape the active mode required; `pre` is the prefix of well-shaped
rows processed before the offending row.) -/
theorem fill_query_placeholder_shape_mismatch (q : String) (t : String) (ps : Int)
    (pre rest : List Row) (hq : (splitQuery q).isOk = true) (hps : 1 ≤ ps) :
    (∀ tv : Option String, tv = Option.none ∨ tv = some "" →
      ∀ m : List (String × PyVal),
      (∀ r ∈ pre, ∃ targs, r = Row.tup targs) →
      fillQueryPlaceholder q (pre ++ Row.dict m :: rest) tv ps =
        .error "If template is not provided, values must be given as a list of tuples") ∧
    (t ≠ "" →
      ∀ targs : List PyVal,
      (∀ r ∈ pre, ∃ d, r = Row.dict d ∧ (renderRowTemplate t d).isOk = true) →
      fillQueryPlaceholder q (pre ++ Row.tup targs :: rest) (some t) ps =
        .error "If template is provided, values must be given as a list of dictionaries") := by
  obtain ⟨seg, hseg⟩ := isOk_exists _ hq
  constructor
  · rintro tv (rfl | rfl) m hpre <;>
    · apply fill_error_of_bad_row q seg _ ps hps pre rest (Row.dict m) _ hseg
      · intro r hr
        obtain ⟨targs, hta⟩ := hpre r hr
        subst hta
        rfl
      · rfl
  · intro ht targs hpre
    apply fill_error_of_bad_row q seg (some t) ps hps pre rest (Row.tup targs) _ hseg
    · intro r hr
      obtain ⟨d, hd, hok⟩ := hpre r hr
      subst hd
      have hrw : renderRow (some t) (Row.dict d) = renderRowTemplate t d := by
        show (if t = "" then renderRowPositional (Row.dict d)
          else renderRowTemplated t (Row.dict d)) = _
        rw [if_neg ht]
        rfl
      rw [hrw]
      exact hok
    · show (if t = "" then renderRowPositional (Row.tup targs)
        else renderRowTemplated t (Row.tup targs)) = _
      rw [if_neg ht]
      rfl

theorem fill_query_placeholder_shape_mismatch_witness :
    (splitQuery "VALUES \x7b\x7b val \x7d\x7d").isOk = true ∧
    (1 : Int) ≤ 2 ∧
    ("(\x7b\x7b a \x7d\x7d)" : String) ≠ "" ∧
    fillQueryPlaceholder "VALUES \x7b\x7b val \x7d\x7d"
        [Row.tup [PyVal.int 1], Row.dict []] (some "") 2 =
      .error "If template is not provided, values must be given as a list of tuples" ∧
    fillQueryPlaceholder "VALUES \x7b\x7b val \x7d\x7d"
        [Row.dict [("a", PyVal.int 1)], Row.tup []] (some "(\x7b\x7b a \x7d\x7d)") 2 =
      .error "If template is provided, values must be given as a list of dictionaries" := by
  refine ⟨rfl, by omega, by decide, ?_, ?_⟩
  · exact (fill_query_placeholder_shape_mismatch "VALUES \x7b\x7b val \x7d\x7d" "unused" 2
      [Row.tup [PyVal.int 1]] [] rfl (by omega)).1 (some "") (Or.inr rfl) []
      (by
        intro r hr
        rw [List.mem_singleton] at hr
        exact ⟨[PyVal.int 1], hr⟩)
  · exact (fill_query_placeholder_shape_mismatch "VALUES \x7b\x7b val \x7d\x7d"
      "(\x7b\x7b a \x7d\x7d)" 2 [Row.dict [("a", PyVal.int 1)]] [] rfl (by omega)).2
      (by decide) []
      (by
        intro r hr
        rw [List.mem_singleton] at hr
        exact ⟨[("a", PyVal.int 1)], hr, rfl⟩)

/-- C9: `execute_values` rejects an empty `values` list and a `page_size`
outside `[1, 100]` with `ThanoSQLValueError` before any query string is
assembled (the first two parts hold for every query string, including
ones `_split_query` would reject, showing no query processing happens
first); and `fill_query_placeholder` itself does not reject an empty
values list: with a well-formed template it succeeds, the paginator
yielding zero pages. -/
theorem execute_values_validation :
    (∀ (q : String) (t : Option String) (ps : Int) (v : List Row),
      v = [] → executeValues q v t ps = .error "Values cannot be empty") ∧
    (∀ (q : String) (t : Option String) (ps : Int) (v : List Row),
      v ≠ [] → (ps < 1 ∨ ps > 100) →
      executeValues q v t ps =
        .error "Page size can only range from 1 to 100 (inclusive)") ∧
    (∀ (q : String) (t : Option String) (ps : Int),
      (splitQuery q).isOk = true → 1 ≤ ps →
      (fillQueryPlaceholder q [] t ps).isOk = true) := by
  refine ⟨?_, ?_, ?_⟩
  · intro q t ps v hv
    subst hv
    rfl
  · intro q t ps v hv hps
    rw [executeValues, if_neg (fun h => hv (List.length_eq_zero.mp h)), if_pos hps]
  · intro q t ps hq hps
    obtain ⟨seg, hseg⟩ := isOk_exists _ hq
    simp only [fillQueryPlaceholder, hseg, paginate_nil, mapExcept_nil]
    rfl

theorem execute_values_validation_witness :
    executeValues "no placeholder here" [] Option.none 5 =
      .error "Values cannot be empty" ∧
    executeValues "no placeholder here" [Row.tup []] Option.none 0 =
      .error "Page size can only range from 1 to 100 (inclusive)" ∧
    (fillQueryPlaceholder "VALUES \x7b\x7b val \x7d\x7d" [] Option.none 5).isOk = true :=
  ⟨execute_values_validation.1 "no placeholder here" Option.none 5 [] rfl,
   execute_values_validation.2.1 "no placeholder here" Option.none 0 [Row.tup []]
     (by simp) (Or.inl (by omega)),
   execute_values_validation.2.2 "VALUES \x7b\x7b val \x7d\x7d" Option.none 5 rfl (by omega)⟩
